import Mathlib

/-!
Verification of the launch.json updater fragment of a VS Code Python
extension.  The development shallowly embeds:

* `StandardErrorHandler.handleError` (src/client/linters/errorHandlers/standard.ts),
* `resolveVariables` (src/client/debugger/extension/configuration/utils/common.ts),
* the `LaunchJsonUpdaterServiceHelper` operations (cursor classifier and
  insertion orchestrator).  The helper implementation file itself is not part
  of the source tree (only its unit tests and its caller are), so those
  operations are modelled from the specification document, as indicated by
  their doc comments.

Machine strings are modelled as `String` / `List Char`; JavaScript
`undefined` is modelled as `Option.none`; promises are collapsed to their
resolved values (the module is single threaded and cooperative).
-/

namespace VSCodePy

/-- Whitespace test used throughout: matches the characters that both
JavaScript `trim` and the JSON grammar treat as blank in the ASCII documents of this module. -/
def isWsChar (c : Char) : Bool :=
  c = ' ' || c = '\n' || c = '\t' || c = '\r'

/-- Holds when applied as `startsWithList hay pat` when `pat` is an initial segment of `hay`
(the primitive behind JavaScript `String.prototype.indexOf`). -/
def startsWithList : List Char → List Char → Bool
  | _, [] => true
  | [], _ :: _ => false
  | c :: cs, d :: ds => c = d && startsWithList cs ds

/-- Computes, as `idxOfList hay pat`, the first index at which `pat` occurs inside
`hay`, like JavaScript `indexOf` (with `none` standing for `-1`). -/
def idxOfList : List Char → List Char → Option Nat
  | [], pat => if pat = [] then some 0 else none
  | c :: cs, pat =>
    if startsWithList (c :: cs) pat then some 0
    else match idxOfList cs pat with
      | some i => some (i + 1)
      | none => none

/-- Holds as `containsList hay pat` when `pat` occurs somewhere inside `hay`,
mirroring JavaScript `String.prototype.includes`. -/
def containsList (hay pat : List Char) : Bool :=
  (idxOfList hay pat).isSome

end VSCodePy

namespace VSCodePy

/-! ### StandardErrorHandler.handleError (src/client/linters/errorHandlers/standard.ts) -/

/-- The argument passed to `StandardErrorHandler.handleError`.  The TypeScript
signature declares `error: Error`, but the body additionally guards on
`typeof error` tested against the string type, so at runtime the argument is either a genuine
`Error` object (modelled by its message) or a type-punned string. -/
inductive LinterErrorArg where
  | str (s : String)
  | err (message : String)

/-- The literal fragment tested by `handleError`: OSError [Errno 2], no such
file or directory, followed by a quote and a slash. -/
def osErrorFragment : String :=
  "OSError: [Errno 2] No such file or directory: \x27/"

/-- The guard of `handleError`: the argument is typed as a string and
includes `osErrorFragment`. -/
def isOsErrorString (e : LinterErrorArg) : Bool :=
  match e with
  | .str s => containsList s.data osErrorFragment.data
  | .err _ => false

/-- The body of `StandardErrorHandler.handleError`.  When the guard fires it delegates to
`this.nextHandler` when one exists and otherwise resolves `false`; in every
other case it logs, fires the error dialog (side effects outside the model)
and resolves `true`.  The chained handler is modelled as an optional function
from the same argument to the resolved boolean. -/
def handleError (nextHandler : Option (LinterErrorArg → Bool)) (e : LinterErrorArg) : Bool :=
  if isOsErrorString e then
    match nextHandler with
    | some h => h e
    | none => false
  else true

end VSCodePy

namespace VSCodePy

/-! ### resolveVariables (src/client/debugger/extension/configuration/utils/common.ts) -/

/-- The `folder` parameter of `resolveVariables`: only its `uri` is consulted
(it is handed to `getWorkspaceFolder`). -/
structure FolderUri where
  uri : String

/-- One parsed `$\x7b...\x7d` occurrence of the regex `/\$\\\x7b(.*?)\\\x7d/g`:
either a literal character outside every match, or the captured variable
name of one match. -/
inductive Chunk where
  | lit (c : Char)
  | tok (name : List Char)

/-- The full matched text `$\x7bname\x7d` rebuilt from a captured name. -/
def tokenChars (name : List Char) : List Char :=
  '$' :: '\x7b' :: (name ++ ['\x7d'])

/-- The lookup `variablesObject[name]`: the object literal carries the single
key `workspaceFolder`, whose value (a string or `undefined`) is `wsVal`. -/
def lookupVariable (wsVal : Option String) (name : List Char) : Option String :=
  if name = "workspaceFolder".data then wsVal else none

/-- The environment-token test on a full match:
`indexOf` of the text env-dot or env-colon within the match is positive. -/
def isEnvToken (tok : List Char) : Bool :=
  (match idxOfList tok "env.".data with
    | some i => decide (0 < i)
    | none => false) ||
  (match idxOfList tok "env:".data with
    | some i => decide (0 < i)
    | none => false)

/-- The replacement callback of `value.replace(regexp, ...)`: a resolved
string value substitutes the match; otherwise an environment-flavoured match
is erased and every other match is kept verbatim. -/
def replaceToken (wsVal : Option String) (name : List Char) : List Char :=
  match lookupVariable wsVal name with
  | some v => v.data
  | none => if isEnvToken (tokenChars name) then [] else tokenChars name

/-- Scan for the closing `\x7d` of a lazily matched token: the JavaScript `.`
does not cross line terminators, so the search fails on `\n` or `\r`. -/
def splitToken : List Char → Option (List Char × List Char)
  | [] => none
  | c :: rest =>
    if c = '\x7d' then some ([], rest)
    else if c = '\n' || c = '\r' then none
    else match splitToken rest with
      | some (n, a) => some (c :: n, a)
      | none => none

/-- The left-to-right substitution performed by
`value.replace(/\$\\\x7b(.*?)\\\x7d/g, ...)`, with explicit fuel (each step
consumes at least one input character, so `length + 1` fuel is exact). -/
def substF (wsVal : Option String) : Nat → List Char → List Char
  | 0, cs => cs
  | _ + 1, [] => []
  | fuel + 1, c :: rest =>
    if c = '$' then
      match rest with
      | d :: rest2 =>
        if d = '\x7b' then
          match splitToken rest2 with
          | some (name, after) => replaceToken wsVal name ++ substF wsVal fuel after
          | none => c :: substF wsVal fuel rest
        else c :: substF wsVal fuel rest
      | [] => [c]
    else c :: substF wsVal fuel rest

/-- The same left-to-right scan as `substF`, but recording the decomposition
of the input into literal characters and matched tokens instead of
substituting. -/
def scanChunksF : Nat → List Char → List Chunk
  | 0, cs => cs.map Chunk.lit
  | _ + 1, [] => []
  | fuel + 1, c :: rest =>
    if c = '$' then
      match rest with
      | d :: rest2 =>
        if d = '\x7b' then
          match splitToken rest2 with
          | some (name, after) => Chunk.tok name :: scanChunksF fuel after
          | none => Chunk.lit c :: scanChunksF fuel rest
        else Chunk.lit c :: scanChunksF fuel rest
      | [] => [Chunk.lit c]
    else Chunk.lit c :: scanChunksF fuel rest

/-- Rendering of one chunk under substitution. -/
def renderChunk (wsVal : Option String) : Chunk → List Char
  | .lit c => [c]
  | .tok name => replaceToken wsVal name

/-- Rendering of one chunk back to the original text. -/
def rawChunk : Chunk → List Char
  | .lit c => [c]
  | .tok name => tokenChars name

/-- A chunk is inert when substitution leaves it verbatim: a literal, or a
token that neither resolves nor is environment-flavoured. -/
def chunkInert (wsVal : Option String) : Chunk → Bool
  | .lit _ => true
  | .tok name =>
    (lookupVariable wsVal name).isNone && !(isEnvToken (tokenChars name))

/-- A chunk resolves when it is a token whose captured name maps to a string
value in `variablesObject`. -/
def chunkResolves (wsVal : Option String) : Chunk → Bool
  | .lit _ => false
  | .tok name => (lookupVariable wsVal name).isSome

/-- The value stored under `variablesObject.workspaceFolder`:
`folder ? getWorkspaceFolder(folder.uri) : undefined`, then
`workspaceFolder ? workspaceFolder.uri.fsPath : rootFolder`.  The external
`getWorkspaceFolder` collaborator is abstracted as `gwf`, mapping a uri to
the `fsPath` of the resolved workspace folder when one exists. -/
def wsValueOf (gwf : String → Option String) (rootFolder : Option String)
    (folder : Option FolderUri) : Option String :=
  match folder with
  | some f =>
    match gwf f.uri with
    | some w => some w
    | none => rootFolder
  | none => rootFolder

/-- The function `resolveVariables` from common.ts.  A falsy `value` (undefined or the
empty string) is returned as is, without resolving the workspace folder;
otherwise every `$\x7b...\x7d` match is substituted by `replaceToken`. -/
def resolveVariables (gwf : String → Option String) (value : Option String)
    (rootFolder : Option String) (folder : Option FolderUri) : Option String :=
  match value with
  | none => none
  | some s =>
    if s.data = [] then some s
    else
      some (String.mk (substF (wsValueOf gwf rootFolder folder) (s.data.length + 1) s.data))

/-- The token decomposition of a whole input string, at the fuel
`resolveVariables` uses. -/
def scanChunksOf (s : String) : List Chunk :=
  scanChunksF (s.data.length + 1) s.data

/-- A constant `getWorkspaceFolder` collaborator that resolves nothing. -/
def gwfNone : String → Option String := fun _ => none

end VSCodePy

namespace VSCodePy

/-! ### JSON values and serialization

Modelled from the spec: the helper file
`src/client/debugger/extension/configuration/launch.json/updaterServiceHelper.ts`
is absent from the source tree (only its unit tests and its caller are
present), so the JSON handling it relies on — `JSON.parse` of the document
text and `JSON.stringify` of a configuration — is modelled here. -/

/-- Modelled from the spec: a JSON value, the shape of a parsed `launch.json`
document and of a debug `Configuration` ("a mapping of string keys to
JSON-serializable values").  Numbers are kept as their source text, which is
all the classifier needs. -/
inductive JValue where
  | null
  | bool (b : Bool)
  | num (text : String)
  | str (s : String)
  | arr (items : List JValue)
  | obj (members : List (String × JValue))

/-- JSON string escaping as performed by `JSON.stringify` on the characters
occurring in the documents of this module. -/
def escapeJsonChar (c : Char) : List Char :=
  if c = '"' then ['\\', '"']
  else if c = '\\' then ['\\', '\\']
  else if c = '\n' then ['\\', 'n']
  else if c = '\t' then ['\\', 't']
  else if c = '\r' then ['\\', 'r']
  else [c]

mutual

/-- Modelled from the spec: compact serialization of a JSON value, as
`JSON.stringify` produces for the inserted configuration. -/
def jsonStringifyChars : JValue → List Char
  | .null => "null".data
  | .bool true => "true".data
  | .bool false => "false".data
  | .num t => t.data
  | .str s => '"' :: (s.data.flatMap escapeJsonChar ++ ['"'])
  | .arr items => '[' :: (jsonStringifyItems items ++ [']'])
  | .obj members => '\x7b' :: (jsonStringifyMembers members ++ ['\x7d'])

/-- Comma-separated serialization of array items. -/
def jsonStringifyItems : List JValue → List Char
  | [] => []
  | [v] => jsonStringifyChars v
  | v :: w :: rest => jsonStringifyChars v ++ ',' :: jsonStringifyItems (w :: rest)

/-- Comma-separated serialization of object members. -/
def jsonStringifyMembers : List (String × JValue) → List Char
  | [] => []
  | [(k, v)] => ('"' :: (k.data.flatMap escapeJsonChar ++ ['"', ':'])) ++ jsonStringifyChars v
  | (k, v) :: m :: rest =>
    ('"' :: (k.data.flatMap escapeJsonChar ++ ['"', ':'])) ++ jsonStringifyChars v
      ++ ',' :: jsonStringifyMembers (m :: rest)

end

/-- Serialization `JSON.stringify` at the `String` level. -/
def jsonStringify (v : JValue) : String :=
  String.mk (jsonStringifyChars v)

/-- Skip JSON whitespace, advancing the linear offset. -/
def skipWs : List Char → Nat → List Char × Nat
  | [], p => ([], p)
  | c :: rest, p => if isWsChar c then skipWs rest (p + 1) else (c :: rest, p)

/-- Decode one escaped character of a JSON string literal (lenient: unknown
escapes yield the escaped character itself). -/
def decodeEsc (c : Char) : Char :=
  if c = 'n' then '\n'
  else if c = 't' then '\t'
  else if c = 'r' then '\r'
  else c

/-- Parse the body of a JSON string literal after its opening quote,
returning the decoded content, the rest of the input and the offset just
after the closing quote. -/
def parseStringBody : List Char → Nat → Option (List Char × List Char × Nat)
  | [], _ => none
  | '\\' :: c :: rest, p =>
    match parseStringBody rest (p + 2) with
    | some (s, r, q) => some (decodeEsc c :: s, r, q)
    | none => none
  | '\\' :: [], _ => none
  | '"' :: rest, p => some ([], rest, p + 1)
  | c :: rest, p =>
    match parseStringBody rest (p + 1) with
    | some (s, r, q) => some (c :: s, r, q)
    | none => none

/-- Characters that may make up a JSON number token (parsed leniently). -/
def isNumChar (c : Char) : Bool :=
  c.isDigit || c = '-' || c = '+' || c = '.' || c = 'e' || c = 'E'

mutual

/-- Modelled from the spec: a JSON value parser tracking linear offsets, the
model of the `JSON.parse` call through which the classifier "locates the
byte span of the `configurations` array in the text by parsing JSON".  Returns
the value, the unconsumed input and the offset just after the value. -/
def parseValueF : Nat → List Char → Nat → Option (JValue × List Char × Nat)
  | 0, _, _ => none
  | fuel + 1, cs, p =>
    let (cs, p) := skipWs cs p
    match cs with
    | [] => none
    | c :: rest =>
      if c = '"' then
        match parseStringBody rest (p + 1) with
        | some (content, r, q) => some (.str (String.mk content), r, q)
        | none => none
      else if c = '\x7b' then
        match parseObjMembersF fuel rest (p + 1) with
        | some (ms, r, q) => some (.obj (ms.map (fun m => (m.1, m.2.2.2))), r, q)
        | none => none
      else if c = '[' then
        match parseArrItemsF fuel rest (p + 1) with
        | some (items, r, q) => some (.arr items, r, q)
        | none => none
      else if c.isDigit || c = '-' then
        let digits := (c :: rest).takeWhile isNumChar
        some (.num (String.mk digits), (c :: rest).dropWhile isNumChar, p + digits.length)
      else
        match cs with
        | 't' :: 'r' :: 'u' :: 'e' :: r => some (.bool true, r, p + 4)
        | 'f' :: 'a' :: 'l' :: 's' :: 'e' :: r => some (.bool false, r, p + 5)
        | 'n' :: 'u' :: 'l' :: 'l' :: r => some (.null, r, p + 4)
        | _ => none
termination_by structural fuel _ _ => fuel

/-- Items of a JSON array after the opening `[` has been consumed. -/
def parseArrItemsF : Nat → List Char → Nat → Option (List JValue × List Char × Nat)
  | 0, _, _ => none
  | fuel + 1, cs, p =>
    let (cs2, p2) := skipWs cs p
    match cs2 with
    | ']' :: r => some ([], r, p2 + 1)
    | _ => parseArrTailF fuel cs p
termination_by structural fuel _ _ => fuel

/-- One array item followed by either a comma and further items or the
closing `]`. -/
def parseArrTailF : Nat → List Char → Nat → Option (List JValue × List Char × Nat)
  | 0, _, _ => none
  | fuel + 1, cs, p =>
    match parseValueF fuel cs p with
    | none => none
    | some (v, cs, p) =>
      let (cs, p) := skipWs cs p
      match cs with
      | ',' :: r =>
        match parseArrTailF fuel r (p + 1) with
        | some (vs, r2, q) => some (v :: vs, r2, q)
        | none => none
      | ']' :: r => some ([v], r, p + 1)
      | _ => none
termination_by structural fuel _ _ => fuel

/-- Members of a JSON object after the opening brace has been consumed.
Each member is recorded together with the span of its value: the offset of
the first character of the value and the offset just after its last character. -/
def parseObjMembersF : Nat → List Char → Nat →
    Option (List (String × Nat × Nat × JValue) × List Char × Nat)
  | 0, _, _ => none
  | fuel + 1, cs, p =>
    let (cs2, p2) := skipWs cs p
    match cs2 with
    | '\x7d' :: r => some ([], r, p2 + 1)
    | _ => parseObjTailF fuel cs p
termination_by structural fuel _ _ => fuel

/-- One object member followed by either a comma and further members or the
closing brace. -/
def parseObjTailF : Nat → List Char → Nat →
    Option (List (String × Nat × Nat × JValue) × List Char × Nat)
  | 0, _, _ => none
  | fuel + 1, cs, p =>
    let (cs, p) := skipWs cs p
    match cs with
    | '"' :: rest =>
      match parseStringBody rest (p + 1) with
      | none => none
      | some (key, cs, p) =>
        let (cs, p) := skipWs cs p
        match cs with
        | ':' :: rest =>
          let (cs, vStart) := skipWs rest (p + 1)
          match parseValueF fuel cs vStart with
          | none => none
          | some (v, cs, vEnd) =>
            let (cs, q) := skipWs cs vEnd
            match cs with
            | ',' :: r =>
              match parseObjTailF fuel r (q + 1) with
              | some (ms, r2, q2) => some ((String.mk key, vStart, vEnd, v) :: ms, r2, q2)
              | none => none
            | '\x7d' :: r => some ([(String.mk key, vStart, vEnd, v)], r, q + 1)
            | _ => none
        | _ => none
    | _ => none
termination_by structural fuel _ _ => fuel

end

/-- The result of parsing a `launch.json` document: the linear offsets of the
span of the `configurations` value (`cfgStart` is the offset of its first
character, `cfgEnd` the offset just after its last character) together with
the parsed value.  For an array value, `cfgStart` addresses the `[` and
`cfgEnd - 1` the `]`. -/
structure LaunchParse where
  cfgStart : Nat
  cfgEnd : Nat
  cfgValue : JValue

/-- Modelled from the spec: parse the document text as JSON (the missing
missing `JSON.parse` call of the helper) and locate the `configurations` member of the
top-level object.  `none` models a parse failure (which in the source throws)
or an absent `configurations` field.  A duplicated key behaves like
`JSON.parse`: the last occurrence wins. -/
def parseLaunch (text : String) : Option LaunchParse :=
  let (cs, p) := skipWs text.data 0
  match cs with
  | c :: rest =>
    if c = '\x7b' then
      match parseObjMembersF (text.data.length + 1) rest (p + 1) with
      | some (ms, r, _) =>
        if (skipWs r 0).1 = [] then
          match (ms.filter (fun m => m.1 = "configurations")).getLast? with
          | some (_, s, e, v) => some ⟨s, e, v⟩
          | none => none
        else none
      | none => none
    else none
  | [] => none

/-- The `configurations` span of a document, when the document parses. -/
def cfgSpanOf (text : String) : Option (Nat × Nat) :=
  (parseLaunch text).map (fun i => (i.cfgStart, i.cfgEnd))

/-- Whether a JSON value is the empty array. -/
def isEmptyArr : JValue → Bool
  | .arr [] => true
  | _ => false

/-- Whether a JSON value is a non-empty array. -/
def isNonEmptyArr : JValue → Bool
  | .arr (_ :: _) => true
  | _ => false

/-- Emptiness of the parsed `configurations` value of a document. -/
def cfgEmptyOf (text : String) : Option Bool :=
  (parseLaunch text).map (fun i => isEmptyArr i.cfgValue)

/-- Non-emptiness (as an array) of the parsed `configurations` value. -/
def cfgNonEmptyOf (text : String) : Option Bool :=
  (parseLaunch text).map (fun i => isNonEmptyArr i.cfgValue)

/-- Modelled from the spec: `isConfigurationArrayEmpty(document)` of the
missing helper "parses the document text as JSON, reads the `configurations`
field, returns whether it is an empty sequence"; behaviour on malformed
input is a precondition violation, modelled by `none`. -/
def isConfigurationArrayEmpty (text : String) : Option Bool :=
  cfgEmptyOf text

/-- The verdict of the classifier about the cursor: `undefined` (cursor outside
the `configurations` array) is modelled by `Option.none` around this type. -/
inductive PositionOfCursor where
  | BeforeItem
  | AfterItem
  | InsideEmptyArray
deriving DecidableEq

/-- The comma hint accepted by `getTextForInsertion`. -/
inductive PositionOfComma where
  | BeforeCursor
deriving DecidableEq

/-- Modelled from the spec: the forward half of the raw text
scan — the offset of the first unmatched `\x7b` at or after the cursor,
looking only at text within the array span.  `chars` is the text from offset
`i` on (up to the end of the span); `pending` counts closers of items that
enclose the cursor and are closed before the candidate opener. -/
def scanForwardOpen : List Char → Nat → Nat → Option Nat
  | [], _, _ => none
  | c :: rest, i, pending =>
    if c = '\x7b' then
      if pending = 0 then some i else scanForwardOpen rest (i + 1) (pending - 1)
    else if c = '\x7d' then scanForwardOpen rest (i + 1) (pending + 1)
    else scanForwardOpen rest (i + 1) pending

/-- Modelled from the spec: the backward half of the raw text
scan — the offset of the nearest unmatched `\x7d` strictly before the
cursor.  `chars` is the text between the opening `[` of the array and the cursor,
reversed, so its head sits at offset `i = cursor - 1`. -/
def scanBackwardClose : List Char → Nat → Nat → Option Nat
  | [], _, _ => none
  | c :: rest, i, pending =>
    if c = '\x7d' then
      if pending = 0 then some i else scanBackwardClose rest (i - 1) (pending - 1)
    else if c = '\x7b' then scanBackwardClose rest (i - 1) (pending + 1)
    else scanBackwardClose rest (i - 1) pending

/-- The first unmatched `\x7b` at or after offset `caret`, within the span
that ends at offset `spanEnd` (exclusive). -/
def fwdOpenIn (text : String) (caret spanEnd : Nat) : Option Nat :=
  scanForwardOpen ((text.data.drop caret).take (spanEnd - caret)) caret 0

/-- The nearest unmatched `\x7d` strictly before offset `caret`, within the
span that starts just after the array bracket at offset `spanStart`. -/
def bwdCloseIn (text : String) (spanStart caret : Nat) : Option Nat :=
  scanBackwardClose (((text.data.drop (spanStart + 1)).take (caret - (spanStart + 1))).reverse)
    (caret - 1) 0

/-- Modelled from the spec: the classification of a cursor strictly inside a
non-empty `configurations` array, from the two scans: only an unmatched
opener ahead means `BeforeItem`, only an unmatched closer behind means
`AfterItem`, and when both exist the nearer boundary wins, an equal distance
going to `AfterItem` (the behaviour the unit tests pin at a cursor on the
comma between two items and at the `\x7b` of the second item). -/
def classifyByScan (text : String) (spanStart spanEnd caret : Nat) : Option PositionOfCursor :=
  match fwdOpenIn text caret spanEnd, bwdCloseIn text spanStart caret with
  | some _, none => some .BeforeItem
  | none, some _ => some .AfterItem
  | some o, some c =>
    if caret - c ≤ o - caret then some .AfterItem else some .BeforeItem
  | none, none => none

/-- Modelled from the spec: `getCursorPositionInConfigurationsArray` of the
missing helper.  It locates the `configurations` array span by parsing JSON,
returns `undefined` (`none`) for a cursor offset outside the span,
`InsideEmptyArray` for a cursor inside an empty array, and otherwise
classifies by the raw text scan. -/
def getCursorPositionInConfigurationsArray (text : String) (caret : Nat) :
    Option PositionOfCursor :=
  match parseLaunch text with
  | none => none
  | some info =>
    if info.cfgStart < caret && caret < info.cfgEnd then
      if isEmptyArr info.cfgValue then some .InsideEmptyArray
      else classifyByScan text info.cfgStart info.cfgEnd caret
    else none

/-- Modelled from the spec: `getTextForInsertion(config, position,
commaPosition?)` serializes the configuration and wraps it with a comma
according to the classified position: a leading comma after an item unless
one already precedes the cursor, a trailing comma before an item, and the
bare serialization inside an empty array. -/
def getTextForInsertion (config : JValue) (cursorPosition : PositionOfCursor)
    (commaPosition : Option PositionOfComma) : String :=
  let json := jsonStringify config
  match cursorPosition with
  | .AfterItem =>
    match commaPosition with
    | some .BeforeCursor => json
    | none => "," ++ json
  | .BeforeItem => json ++ ","
  | .InsideEmptyArray => json

/-! ### isCommaImmediatelyBeforeCursor -/

/-- JavaScript `trim`: strip leading and trailing whitespace. -/
def trimList (cs : List Char) : List Char :=
  ((cs.dropWhile isWsChar).reverse.dropWhile isWsChar).reverse

/-- Strip only trailing whitespace. -/
def dropTrailingWs (cs : List Char) : List Char :=
  (cs.reverse.dropWhile isWsChar).reverse

/-- A line (or line fragment) is blank when trimming leaves nothing. -/
def isBlankLine (cs : List Char) : Bool :=
  trimList cs = []

/-- Whether a line or line fragment, once trimmed, ends in a comma (the
source checks `trim` followed by `endsWith` with a comma argument). -/
def lineEndsWithComma (cs : List Char) : Bool :=
  match (trimList cs).getLast? with
  | some c => c = ','
  | none => false

/-- Modelled from the spec: the backward walk of
`isCommaImmediatelyBeforeCursor` — "walks backward line-by-line skipping
blank lines until a non-blank line is found", checking whether that line's
last non-whitespace character is a comma and answering `false` at the top of
the document.  `walkPrevLines doc n` inspects lines `n - 1` down to `0`. -/
def walkPrevLines (doc : List (List Char)) : Nat → Bool
  | 0 => false
  | n + 1 =>
    let lineText := doc.getD n []
    if isBlankLine lineText then walkPrevLines doc n
    else lineEndsWithComma lineText

/-- Modelled from the spec: `isCommaImmediatelyBeforeCursor(document,
position)`.  The document is its list of lines (without terminators), the
position a line number and column.  The current line up to the cursor is
inspected first; if it is entirely whitespace the walk continues upward. -/
def isCommaImmediatelyBeforeCursor (doc : List (List Char)) (line col : Nat) : Bool :=
  let current := (doc.getD line []).take col
  if isBlankLine current then walkPrevLines doc line
  else lineEndsWithComma current

/-- All the text that precedes the cursor: the lines above, followed by the
current line up to the cursor, joined with newlines. -/
def joinWithNl : List (List Char) → List Char
  | [] => []
  | [l] => l
  | l :: m :: rest => l ++ '\n' :: joinWithNl (m :: rest)

/-- The document text before the cursor, as one character list. -/
def textBeforeCursor (doc : List (List Char)) (line col : Nat) : List Char :=
  joinWithNl (doc.take line ++ [(doc.getD line []).take col])

/-- The last non-whitespace character of a chunk of text. -/
def lastNonWs (cs : List Char) : Option Char :=
  (cs.reverse.dropWhile isWsChar).head?

/-- Whether the last non-whitespace character of a chunk of text is a
comma: the verdict the specification assigns to the nearest non-blank text
preceding the cursor. -/
def endsInComma (cs : List Char) : Bool :=
  match lastNonWs cs with
  | some c => c = ','
  | none => false

/-! ### selectAndInsertDebugConfig -/

/-- A document identity: `activeTextEditor.document === document` in the
source compares object references, modelled by a numeric identity. -/
structure DocumentId where
  id : Nat

/-- The collaborators consulted by one `selectAndInsertDebugConfig` call,
collapsed to their observed values: the document of the active editor when
one exists, the configurations the external provider returns, and whether
the cancellation token reports cancellation.  The configuration type is
abstract. -/
structure SelectEnv (α : Type) where
  activeEditor : Option DocumentId
  providedConfigs : List α
  cancelled : Bool

/-- Modelled from the spec: `selectAndInsertDebugConfig(document, position,
token)`.  A linear guard chain — no active editor, a mismatched active
document, a cancelled token, or an empty provider result — ends in a silent
no-op; otherwise the first provided configuration is handed to
`insertDebugConfiguration`.  The result is the configuration inserted, with
`none` meaning no edit was applied (and no error signalled: the function is
total). -/
def selectAndInsertDebugConfig {α : Type} (env : SelectEnv α) (doc : DocumentId) : Option α :=
  match env.activeEditor with
  | none => none
  | some d =>
    if d.id = doc.id then
      if env.cancelled then none
      else
        match env.providedConfigs with
        | [] => none
        | c :: _ => some c
    else none

/-! ### Sample documents and inputs used by witnesses and counterexamples -/

/-- A minimal launch.json with an empty `configurations` array: the opening
bracket sits at offset 18 and the closing bracket at offset 19. -/
def docEmpty : String := "\x7b\"configurations\":[]\x7d"

/-- A minimal launch.json with two empty configuration objects: the array
span is offsets 18 to 25, the separating comma sits at offset 21, the brace
of the second item at offset 22 and the closing bracket at offset 24. -/
def docTwo : String := "\x7b\"configurations\":[\x7b\x7d,\x7b\x7d]\x7d"

/-- A linter error string carrying the OSError fragment. -/
def osErrSample : String :=
  "Traceback: OSError: [Errno 2] No such file or directory: \x27/usr/bin/python\x27"

/-- An input whose single token neither resolves nor names an environment
variable. -/
def inertSample : String := "run $\x7bfoo\x7d now"

/-- An input consisting of a single unresolvable environment token. -/
def envSample : String := "$\x7benv.x\x7d"

end VSCodePy

namespace VSCodePy

/-! ### Theorems -/

/-- C2: `getTextForInsertion` wraps the serialized configuration exactly as
specified — a leading comma after an item unless one already precedes the
cursor, a trailing comma before an item, and the bare serialization both
with the comma hint and inside an empty array. -/
theorem getTextForInsertion_comma_rules (cfg : JValue) :
    getTextForInsertion cfg .AfterItem none = "," ++ jsonStringify cfg ∧
    getTextForInsertion cfg .AfterItem (some .BeforeCursor) = jsonStringify cfg ∧
    getTextForInsertion cfg .BeforeItem none = jsonStringify cfg ++ "," ∧
    getTextForInsertion cfg .InsideEmptyArray none = jsonStringify cfg :=
  ⟨rfl, rfl, rfl, rfl⟩

/-- C3: every failing guard of `selectAndInsertDebugConfig` — no active
editor, a mismatched active document, an already cancelled token, or an
empty provider result — yields a silent no-op: no configuration is inserted
and no error is signalled (the function is total and returns `none`). -/
theorem selectAndInsertDebugConfig_guard_noop {α : Type} (env : SelectEnv α)
    (doc : DocumentId) :
    (env.activeEditor = none → selectAndInsertDebugConfig env doc = none) ∧
    (∀ d, env.activeEditor = some d → d.id ≠ doc.id →
      selectAndInsertDebugConfig env doc = none) ∧
    (env.cancelled = true → selectAndInsertDebugConfig env doc = none) ∧
    (env.providedConfigs = [] → selectAndInsertDebugConfig env doc = none) := by
  refine ⟨fun h => ?_, fun d h hne => ?_, fun h => ?_, fun h => ?_⟩
  · simp [selectAndInsertDebugConfig, h]
  · simp [selectAndInsertDebugConfig, h, hne]
  · unfold selectAndInsertDebugConfig
    cases henv : env.activeEditor with
    | none => rfl
    | some d => simp [h]
  · unfold selectAndInsertDebugConfig
    cases henv : env.activeEditor with
    | none => rfl
    | some d =>
      by_cases hid : d.id = doc.id
      · simp [hid, h]
      · simp [hid]

/-- Witness for C3: the four guard failures on concrete environments. -/
theorem selectAndInsertDebugConfig_guard_noop_witness :
    selectAndInsertDebugConfig (⟨none, [5], false⟩ : SelectEnv Nat) ⟨0⟩ = none ∧
    selectAndInsertDebugConfig (⟨some ⟨1⟩, [5], false⟩ : SelectEnv Nat) ⟨0⟩ = none ∧
    selectAndInsertDebugConfig (⟨some ⟨0⟩, [5], true⟩ : SelectEnv Nat) ⟨0⟩ = none ∧
    selectAndInsertDebugConfig (⟨some ⟨0⟩, [], false⟩ : SelectEnv Nat) ⟨0⟩ = none :=
  ⟨(selectAndInsertDebugConfig_guard_noop _ _).1 rfl,
   (selectAndInsertDebugConfig_guard_noop _ _).2.1 ⟨1⟩ rfl (by decide),
   (selectAndInsertDebugConfig_guard_noop _ _).2.2.1 rfl,
   (selectAndInsertDebugConfig_guard_noop _ _).2.2.2 rfl⟩

/-- C4: when an active editor shows the passed document, the token is not
cancelled and the provider returns a non-empty list,
`selectAndInsertDebugConfig` hands exactly the first returned configuration
(and no other) to `insertDebugConfiguration`. -/
theorem selectAndInsertDebugConfig_inserts_first {α : Type} (env : SelectEnv α)
    (doc d : DocumentId) (c : α) (rest : List α)
    (h1 : env.activeEditor = some d) (h2 : d.id = doc.id)
    (h3 : env.cancelled = false) (h4 : env.providedConfigs = c :: rest) :
    selectAndInsertDebugConfig env doc = some c := by
  simp [selectAndInsertDebugConfig, h1, h2, h3, h4]

/-- Witness for C4: a concrete environment with two provided configurations
inserts the first one. -/
theorem selectAndInsertDebugConfig_inserts_first_witness :
    selectAndInsertDebugConfig (⟨some ⟨7⟩, [3, 4], false⟩ : SelectEnv Nat) ⟨7⟩ = some 3 :=
  selectAndInsertDebugConfig_inserts_first _ ⟨7⟩ ⟨7⟩ 3 [4] rfl rfl rfl rfl

/-- C9: `resolveVariables` maps an undefined value to undefined and the
empty string to the empty string, resolving no workspace folder in either
case (the result does not depend on the `getWorkspaceFolder` collaborator,
the root folder or the folder argument); being a total function it never
throws. -/
theorem resolveVariables_falsy (gwf gwf' : String → Option String)
    (root root' : Option String) (folder folder' : Option FolderUri) :
    resolveVariables gwf none root folder = none ∧
    resolveVariables gwf (some "") root folder = some "" ∧
    resolveVariables gwf (some "") root folder = resolveVariables gwf' (some "") root' folder' :=
  ⟨rfl, rfl, rfl⟩

/-- C10: `StandardErrorHandler.handleError` resolves `true` for every
argument that is not a string containing the OSError fragment; for such a
string it resolves the verdict of the next handler in the chain, or `false`
when the chain ends; in particular every genuine `Error` object yields
`true`. -/
theorem handleError_returns (next : Option (LinterErrorArg → Bool)) (e : LinterErrorArg) :
    (isOsErrorString e = false → handleError next e = true) ∧
    (isOsErrorString e = true →
      handleError next e = (match next with | some h => h e | none => false)) ∧
    (∀ m, handleError next (.err m) = true) := by
  refine ⟨fun h => ?_, fun h => ?_, fun m => ?_⟩
  · simp [handleError, h]
  · simp [handleError, h]
  · simp [handleError, isOsErrorString]

/-- Witness for C10: a concrete OSError string at the end of the chain
resolves `false`, and a genuine error object resolves `true`. -/
theorem handleError_returns_witness :
    handleError none (.str osErrSample) = false ∧
    handleError none (.err "boom") = true :=
  ⟨(handleError_returns none (.str osErrSample)).2.1 (by decide),
   (handleError_returns none (.err "boom")).2.2 "boom"⟩

/-- Rendering the all-literal decomposition reproduces the input. -/
theorem flatMap_render_map_lit (w : Option String) :
    ∀ cs : List Char, (cs.map Chunk.lit).flatMap (renderChunk w) = cs
  | [] => rfl
  | c :: rest => by
    simp [renderChunk, flatMap_render_map_lit w rest]

/-- The substitution scan agrees with the chunk decomposition rendered by
`renderChunk`, at every fuel. -/
theorem substF_eq_render (w : Option String) :
    ∀ fuel cs, substF w fuel cs = (scanChunksF fuel cs).flatMap (renderChunk w)
  | 0, cs => by simp [substF, scanChunksF, flatMap_render_map_lit]
  | _ + 1, [] => by simp [substF, scanChunksF]
  | fuel + 1, c :: rest => by
    unfold substF scanChunksF
    by_cases hc : c = '$'
    · subst hc
      cases rest with
      | nil => simp [renderChunk]
      | cons d rest2 =>
        by_cases hd : d = '\x7b'
        · subst hd
          cases hsp : splitToken rest2 with
          | none =>
            simp [hsp, renderChunk, substF_eq_render w fuel ('\x7b' :: rest2)]
          | some pr =>
            obtain ⟨name, after⟩ := pr
            simp [hsp, renderChunk, substF_eq_render w fuel after]
        · simp [hd, renderChunk, substF_eq_render w fuel (d :: rest2)]
    · simp [hc, renderChunk, substF_eq_render w fuel rest]

/-- A successful token split decomposes the input around the closing
brace. -/
theorem splitToken_append :
    ∀ cs n a, splitToken cs = some (n, a) → cs = n ++ '\x7d' :: a
  | [], n, a => by simp [splitToken]
  | c :: rest, n, a => by
    unfold splitToken
    by_cases h1 : c = '\x7d'
    · simp only [h1, if_true, Option.some.injEq, Prod.mk.injEq]
      rintro ⟨rfl, rfl⟩
      simp
    · by_cases h2 : c = '\n' || c = '\r'
      · simp [h1, h2]
      · cases hsp : splitToken rest with
        | none => simp [h1, h2, hsp]
        | some pr =>
          obtain ⟨n2, a2⟩ := pr
          have hrec := splitToken_append rest n2 a2 hsp
          simp only [h1, h2, hsp, if_false, Bool.false_eq_true, Option.some.injEq,
            Prod.mk.injEq]
          rintro ⟨rfl, rfl⟩
          simp [hrec]

/-- Rendering the raw decomposition reproduces the input: every chunk of the
all-literal decomposition renders to itself. -/
theorem flatMap_raw_map_lit :
    ∀ cs : List Char, (cs.map Chunk.lit).flatMap rawChunk = cs
  | [] => rfl
  | c :: rest => by
    simp [rawChunk, flatMap_raw_map_lit rest]

/-- The chunk decomposition loses no text: rebuilding every chunk verbatim
gives back the input, at every fuel. -/
theorem scanChunksF_raw :
    ∀ fuel cs, (scanChunksF fuel cs).flatMap rawChunk = cs
  | 0, cs => by simp [scanChunksF, flatMap_raw_map_lit]
  | _ + 1, [] => by simp [scanChunksF]
  | fuel + 1, c :: rest => by
    unfold scanChunksF
    by_cases hc : c = '$'
    · subst hc
      cases rest with
      | nil => simp [rawChunk]
      | cons d rest2 =>
        by_cases hd : d = '\x7b'
        · subst hd
          cases hsp : splitToken rest2 with
          | none =>
            simp [hsp, rawChunk, scanChunksF_raw fuel ('\x7b' :: rest2)]
          | some pr =>
            obtain ⟨name, after⟩ := pr
            have hdec := splitToken_append rest2 name after hsp
            simp only [hsp]
            simp [rawChunk, tokenChars, scanChunksF_raw fuel after, hdec]
        · simp [hd, rawChunk, scanChunksF_raw fuel (d :: rest2)]
    · simp [hc, rawChunk, scanChunksF_raw fuel rest]

/-- On a decomposition whose chunks are all inert, rendering and verbatim
rebuilding coincide. -/
theorem flatMap_render_eq_raw (w : Option String) :
    ∀ l : List Chunk, (∀ ch ∈ l, chunkInert w ch = true) →
      l.flatMap (renderChunk w) = l.flatMap rawChunk
  | [], _ => rfl
  | ch :: rest, h => by
    have h1 := h ch (by simp)
    have h2 := flatMap_render_eq_raw w rest (fun c hc => h c (by simp [hc]))
    cases ch with
    | lit c => simp [renderChunk, rawChunk, h2]
    | tok name =>
      simp only [chunkInert, Bool.and_eq_true, Bool.not_eq_true', Option.isNone_iff_eq_none]
        at h1
      simp [renderChunk, rawChunk, replaceToken, h1.1, h1.2, h2]

/-- C8 (amended): `resolveVariables` substitutes each matched token of a
non-empty input by `renderChunk` — the value of `workspaceFolder` when that
is the captured name and a string value is available (the only resolvable
variable name), the empty string for an unresolved match containing env-dot
or env-colon at a positive index, and the match verbatim otherwise — and the
input is returned unchanged when every token is unresolved and
non-environment. -/
theorem resolveVariables_substitution (gwf : String → Option String)
    (root : Option String) (folder : Option FolderUri) (s : String) :
    resolveVariables gwf (some s) root folder
      = some (String.mk ((scanChunksOf s).flatMap
          (renderChunk (wsValueOf gwf root folder)))) ∧
    ((∀ ch ∈ scanChunksOf s, chunkInert (wsValueOf gwf root folder) ch = true) →
      resolveVariables gwf (some s) root folder = some s) := by
  have hmain : resolveVariables gwf (some s) root folder
      = some (String.mk ((scanChunksOf s).flatMap
          (renderChunk (wsValueOf gwf root folder)))) := by
    unfold resolveVariables
    by_cases hs : s.data = []
    · obtain ⟨l⟩ := s
      simp only [String.data] at hs
      subst hs
      simp [scanChunksOf, scanChunksF]
    · simp [hs, scanChunksOf, substF_eq_render]
  refine ⟨hmain, fun h => ?_⟩
  rw [hmain, flatMap_render_eq_raw _ _ h]
  have hraw := scanChunksF_raw (s.data.length + 1) s.data
  unfold scanChunksOf
  rw [hraw]

/-- Witness for C8: a concrete input whose single token is unresolved and
non-environment is returned unchanged. -/
theorem resolveVariables_substitution_witness :
    resolveVariables gwfNone (some inertSample) none none = some inertSample :=
  (resolveVariables_substitution gwfNone none none inertSample).2 (by decide)

/-- Counterexample for C8 as stated: the non-empty input consisting of one
environment token contains no token that resolves to a string value, yet
`resolveVariables` does not return it unchanged (the token is erased). -/
theorem resolveVariables_unchanged_counterexample :
    envSample ≠ "" ∧
    (∀ ch ∈ scanChunksOf envSample,
      chunkResolves (wsValueOf gwfNone none none) ch = false) ∧
    resolveVariables gwfNone (some envSample) none none = some "" ∧
    resolveVariables gwfNone (some envSample) none none ≠ some envSample := by
  refine ⟨by decide, by decide, by decide, by decide⟩

end VSCodePy

namespace VSCodePy

/-- A value that is a non-empty array is not the empty array. -/
theorem isEmptyArr_eq_false_of_nonEmpty :
    ∀ v : JValue, isNonEmptyArr v = true → isEmptyArr v = false
  | .arr (_ :: _), _ => rfl
  | .arr [], h => Bool.noConfusion h
  | .null, h => Bool.noConfusion h
  | .bool _, h => Bool.noConfusion h
  | .num _, h => Bool.noConfusion h
  | .str _, h => Bool.noConfusion h
  | .obj _, h => Bool.noConfusion h

/-- C7: on a document that parses with a `configurations` field,
`isConfigurationArrayEmpty` answers `true` exactly for the empty array and
`false` for an array with at least one element. -/
theorem isConfigurationArrayEmpty_spec (text : String) (info : LaunchParse)
    (h : parseLaunch text = some info) :
    (info.cfgValue = JValue.arr [] → isConfigurationArrayEmpty text = some true) ∧
    (∀ x xs, info.cfgValue = JValue.arr (x :: xs) →
      isConfigurationArrayEmpty text = some false) := by
  constructor
  · intro hv
    simp [isConfigurationArrayEmpty, cfgEmptyOf, h, hv, isEmptyArr]
  · intro x xs hv
    simp [isConfigurationArrayEmpty, cfgEmptyOf, h, hv, isEmptyArr]

/-- Witness for C7: the empty and the two-element sample documents. -/
theorem isConfigurationArrayEmpty_spec_witness :
    isConfigurationArrayEmpty docEmpty = some true ∧
    isConfigurationArrayEmpty docTwo = some false :=
  ⟨(isConfigurationArrayEmpty_spec docEmpty ⟨18, 20, JValue.arr []⟩ (by rfl)).1 rfl,
   (isConfigurationArrayEmpty_spec docTwo
      ⟨18, 25, JValue.arr [JValue.obj [], JValue.obj []]⟩ (by rfl)).2
      (JValue.obj []) [JValue.obj []] rfl⟩

/-- C6: on a document that parses with a `configurations` field, the
classifier answers `undefined` for a cursor offset outside the span of the
array and `InsideEmptyArray` for an offset inside the span of an empty
array. -/
theorem getCursorPosition_outside_or_empty (text : String) (info : LaunchParse)
    (h : parseLaunch text = some info) (caret : Nat) :
    (¬(info.cfgStart < caret ∧ caret < info.cfgEnd) →
      getCursorPositionInConfigurationsArray text caret = none) ∧
    (info.cfgStart < caret → caret < info.cfgEnd → isEmptyArr info.cfgValue = true →
      getCursorPositionInConfigurationsArray text caret
        = some PositionOfCursor.InsideEmptyArray) := by
  constructor
  · intro hout
    simp only [getCursorPositionInConfigurationsArray, h]
    rw [if_neg]
    simp only [Bool.and_eq_true, decide_eq_true_eq]
    exact hout
  · intro h1 h2 hemp
    simp [getCursorPositionInConfigurationsArray, h, h1, h2, hemp]

/-- Witness for C6: in the empty-array sample document, offset 0 is outside
the span and offset 19 (between the brackets) is inside. -/
theorem getCursorPosition_outside_or_empty_witness :
    getCursorPositionInConfigurationsArray docEmpty 0 = none ∧
    getCursorPositionInConfigurationsArray docEmpty 19
      = some PositionOfCursor.InsideEmptyArray :=
  ⟨(getCursorPosition_outside_or_empty docEmpty ⟨18, 20, JValue.arr []⟩ (by rfl) 0).1 (by decide),
   (getCursorPosition_outside_or_empty docEmpty ⟨18, 20, JValue.arr []⟩ (by rfl) 19).2
      (by decide) (by decide) rfl⟩

/-- C1 (amended): for a cursor inside the span of a non-empty
`configurations` array, the classifier follows the two raw scans, the nearer
unmatched boundary deciding and an equal distance going to `AfterItem`: an
unmatched opening brace ahead with no unmatched closing brace behind gives
`BeforeItem`, an unmatched closing brace behind with no unmatched opening
brace ahead gives `AfterItem`, and when both exist the verdict is
`AfterItem` exactly when the closing brace is at least as near as the
opening brace. -/
theorem getCursorPosition_scan_classification (text : String) (info : LaunchParse)
    (h : parseLaunch text = some info) (caret : Nat)
    (hne : isNonEmptyArr info.cfgValue = true)
    (h1 : info.cfgStart < caret) (h2 : caret < info.cfgEnd) :
    (∀ o, fwdOpenIn text caret info.cfgEnd = some o →
      bwdCloseIn text info.cfgStart caret = none →
      getCursorPositionInConfigurationsArray text caret
        = some PositionOfCursor.BeforeItem) ∧
    (∀ c, bwdCloseIn text info.cfgStart caret = some c →
      fwdOpenIn text caret info.cfgEnd = none →
      getCursorPositionInConfigurationsArray text caret
        = some PositionOfCursor.AfterItem) ∧
    (∀ o c, fwdOpenIn text caret info.cfgEnd = some o →
      bwdCloseIn text info.cfgStart caret = some c →
      getCursorPositionInConfigurationsArray text caret
        = some (if caret - c ≤ o - caret then PositionOfCursor.AfterItem
            else PositionOfCursor.BeforeItem)) := by
  have hemp := isEmptyArr_eq_false_of_nonEmpty _ hne
  have hmain : getCursorPositionInConfigurationsArray text caret
      = classifyByScan text info.cfgStart info.cfgEnd caret := by
    simp [getCursorPositionInConfigurationsArray, h, h1, h2, hemp]
  refine ⟨fun o ho hc => ?_, fun c hc ho => ?_, fun o c ho hc => ?_⟩
  · rw [hmain]
    simp [classifyByScan, ho, hc]
  · rw [hmain]
    simp [classifyByScan, ho, hc]
  · rw [hmain]
    simp [classifyByScan, ho, hc, apply_ite]

/-- Witness for C1: in the two-element sample document, the cursor on the
separating comma sits one character after an unmatched closing brace and one
before an unmatched opening brace, and the tie goes to `AfterItem`. -/
theorem getCursorPosition_scan_classification_witness :
    getCursorPositionInConfigurationsArray docTwo 21
      = some PositionOfCursor.AfterItem := by
  have h := (getCursorPosition_scan_classification docTwo
      ⟨18, 25, JValue.arr [JValue.obj [], JValue.obj []]⟩ (by rfl) 21 rfl
      (by decide) (by decide)).2.2 22 20 (by rfl) (by rfl)
  simpa using h

/-- Counterexample for C1 as stated: in the two-element sample document the
cursor at offset 21 (the separating comma) lies inside the span of the
non-empty array and satisfies the BeforeItem condition of the claim — it is
less than or equal to the offset of the first unmatched opening brace after
it — yet the classifier does not answer `BeforeItem`. -/
theorem getCursorPosition_claim_counterexample :
    cfgSpanOf docTwo = some (18, 25) ∧
    cfgNonEmptyOf docTwo = some true ∧
    (18 : Nat) < 21 ∧ (21 : Nat) < 25 ∧
    fwdOpenIn docTwo 21 25 = some 22 ∧ (21 : Nat) ≤ 22 ∧
    getCursorPositionInConfigurationsArray docTwo 21
      ≠ some PositionOfCursor.BeforeItem := by
  decide

/-- Dropping leading whitespace first does not change the last
non-whitespace character. -/
theorem head?_dropWhile_reverse (cs : List Char) :
    ((cs.dropWhile isWsChar).reverse.dropWhile isWsChar).head?
      = (cs.reverse.dropWhile isWsChar).head? := by
  have hsplit : cs = cs.takeWhile isWsChar ++ cs.dropWhile isWsChar :=
    (List.takeWhile_append_dropWhile isWsChar cs).symm
  have hws : ∀ x ∈ cs.takeWhile isWsChar, isWsChar x = true := fun x hx =>
    List.mem_takeWhile_imp hx
  conv_rhs => rw [hsplit]
  rw [List.reverse_append, List.dropWhile_append]
  split
  · next hemp =>
    have h1 : (cs.dropWhile isWsChar).reverse.dropWhile isWsChar = [] := by
      simpa [List.isEmpty_iff] using hemp
    have h2 : (cs.takeWhile isWsChar).reverse.dropWhile isWsChar = [] := by
      rw [List.dropWhile_eq_nil_iff]
      intro x hx
      exact hws x (List.mem_reverse.mp hx)
    rw [h1, h2]
  · next hemp =>
    rw [List.head?_append]
    cases hl : (cs.dropWhile isWsChar).reverse.dropWhile isWsChar with
    | nil => simp [hl, List.isEmpty_iff] at hemp
    | cons a as => simp [hl]

/-- The source comparison — trim, then look at the final character — agrees
with looking at the last non-whitespace character. -/
theorem lineEndsWithComma_eq_endsInComma (cs : List Char) :
    lineEndsWithComma cs = endsInComma cs := by
  unfold lineEndsWithComma endsInComma lastNonWs trimList
  rw [List.getLast?_reverse, head?_dropWhile_reverse]

/-- Blankness is whiteness of every character. -/
theorem isBlankLine_eq_true_iff (b : List Char) :
    isBlankLine b = true ↔ ∀ x ∈ b, isWsChar x = true := by
  unfold isBlankLine trimList
  rw [decide_eq_true_eq, List.reverse_eq_nil_iff, List.dropWhile_eq_nil_iff]
  constructor
  · intro h x hx
    rcases List.mem_append.mp
        (by rw [List.takeWhile_append_dropWhile]; exact hx :
          x ∈ b.takeWhile isWsChar ++ b.dropWhile isWsChar) with h1 | h1
    · exact List.mem_takeWhile_imp h1
    · exact h x (List.mem_reverse.mpr h1)
  · intro h x hx
    exact h x ((List.dropWhile_sublist _).subset (List.mem_reverse.mp hx))

/-- On a blank chunk there is no non-whitespace character, so no comma. -/
theorem endsInComma_of_blank (b : List Char) (h : isBlankLine b = true) :
    endsInComma b = false := by
  have hall := (isBlankLine_eq_true_iff b).mp h
  have hnil : b.reverse.dropWhile isWsChar = [] := by
    rw [List.dropWhile_eq_nil_iff]
    intro x hx
    exact hall x (List.mem_reverse.mp hx)
  unfold endsInComma lastNonWs
  rw [hnil]
  rfl

/-- The last non-whitespace character of text extended by a newline and a
further line: the new line wins unless it is blank. -/
theorem lastNonWs_append_nl (a b : List Char) :
    lastNonWs (a ++ '\n' :: b)
      = if isBlankLine b then lastNonWs a else lastNonWs b := by
  unfold lastNonWs
  rw [List.reverse_append, List.reverse_cons, List.append_assoc,
    List.singleton_append, List.dropWhile_append]
  by_cases hb : isBlankLine b
  · have hnil : b.reverse.dropWhile isWsChar = [] := by
      rw [List.dropWhile_eq_nil_iff]
      intro x hx
      exact (isBlankLine_eq_true_iff b).mp hb x (List.mem_reverse.mp hx)
    simp only [hnil, List.isEmpty_nil, if_true, hb, List.dropWhile_cons]
    norm_num [isWsChar]
  · have hne : b.reverse.dropWhile isWsChar ≠ [] := by
      intro hnil
      refine hb ((isBlankLine_eq_true_iff b).mpr fun x hx => ?_)
      exact (List.dropWhile_eq_nil_iff.mp hnil) x (List.mem_reverse.mpr hx)
    rw [if_neg hb]
    cases hl : b.reverse.dropWhile isWsChar with
    | nil => exact absurd hl hne
    | cons c cs =>
      simp [hl]

/-- Comma detection over text extended by a newline and a further line. -/
theorem endsInComma_append_nl (a b : List Char) :
    endsInComma (a ++ '\n' :: b)
      = if isBlankLine b then endsInComma a else endsInComma b := by
  unfold endsInComma
  rw [lastNonWs_append_nl]
  by_cases hb : isBlankLine b
  · simp [hb]
  · simp [hb]

/-- Joining a list of lines extended by one further line. -/
theorem joinWithNl_append_singleton :
    ∀ (xs : List (List Char)) (y : List Char), xs ≠ [] →
      joinWithNl (xs ++ [y]) = joinWithNl xs ++ '\n' :: y
  | [], _, h => absurd rfl h
  | [x], y, _ => rfl
  | x :: x2 :: rest, y, _ => by
    have ih := joinWithNl_append_singleton (x2 :: rest) y (by simp)
    simp only [List.cons_append] at ih ⊢
    show x ++ '\n' :: joinWithNl (x2 :: (rest ++ [y]))
      = (x ++ '\n' :: joinWithNl (x2 :: rest)) ++ '\n' :: y
    rw [ih]
    simp [List.append_assoc]

/-- The backward walk over previous lines answers exactly whether the text
of the lines above the cursor line ends, after trimming, in a comma. -/
theorem walkPrevLines_eq (doc : List (List Char)) :
    ∀ n, walkPrevLines doc n = endsInComma (joinWithNl (doc.take n))
  | 0 => by
    simp [walkPrevLines, endsInComma, lastNonWs, joinWithNl]
  | n + 1 => by
    unfold walkPrevLines
    rw [List.take_succ]
    cases hn : doc[n]? with
    | none =>
      have hget : doc.getD n [] = [] := by
        rw [List.getD_eq_getElem?_getD, hn]
        rfl
      rw [hget]
      simp only [Option.toList_none, List.append_nil]
      have hblank : isBlankLine ([] : List Char) = true := by decide
      rw [if_pos hblank]
      exact walkPrevLines_eq doc n
    | some y =>
      have hget : doc.getD n [] = y := by
        rw [List.getD_eq_getElem?_getD, hn]
        rfl
      rw [hget]
      simp only [Option.toList_some]
      cases htn : doc.take n with
      | nil =>
        simp only [List.nil_append]
        have hwalk : walkPrevLines doc n = false := by
          rw [walkPrevLines_eq doc n, htn]
          decide
        by_cases hb : isBlankLine y
        · rw [if_pos hb, hwalk]
          show false = endsInComma y
          rw [endsInComma_of_blank _ hb]
        · rw [if_neg hb, lineEndsWithComma_eq_endsInComma]
          rfl
      | cons l ls =>
        rw [joinWithNl_append_singleton (l :: ls) y (by simp),
          endsInComma_append_nl]
        by_cases hb : isBlankLine y
        · rw [if_pos hb, if_pos hb, walkPrevLines_eq doc n, htn]
        · rw [if_neg hb, if_neg hb, lineEndsWithComma_eq_endsInComma]

/-- C5: `isCommaImmediatelyBeforeCursor` answers `true` exactly when the
nearest non-blank text preceding the cursor ends in a comma — equivalently,
when the last non-whitespace character of all the document text before the
cursor is a comma — and `false` when that text ends in another character or
when no non-blank character precedes the cursor. -/
theorem isCommaImmediatelyBeforeCursor_eq_endsInComma (doc : List (List Char))
    (line col : Nat) :
    isCommaImmediatelyBeforeCursor doc line col
      = endsInComma (textBeforeCursor doc line col) := by
  unfold isCommaImmediatelyBeforeCursor textBeforeCursor
  cases htn : doc.take line with
  | nil =>
    simp only [List.nil_append]
    by_cases hb : isBlankLine ((doc.getD line []).take col)
    · rw [if_pos hb, walkPrevLines_eq doc line, htn]
      show endsInComma [] = endsInComma ((doc.getD line []).take col)
      rw [endsInComma_of_blank _ hb]
      decide
    · rw [if_neg hb, lineEndsWithComma_eq_endsInComma]
      rfl
  | cons l ls =>
    rw [joinWithNl_append_singleton (l :: ls) ((doc.getD line []).take col) (by simp),
      endsInComma_append_nl]
    by_cases hb : isBlankLine ((doc.getD line []).take col)
    · rw [if_pos hb, if_pos hb, walkPrevLines_eq doc line, htn]
    · rw [if_neg hb, if_neg hb, lineEndsWithComma_eq_endsInComma]

end VSCodePy
